import Mathlib

/-!
Verification of the `project_ref` source plugin (bst-external).

The development shallowly embeds `bst_external/sources/project_ref.py`:
the digest computation (`_generate_ref` / `unique_key`), the mirror
population step (`_ensure_mirror`), and the `fetch` / `track` /
`get_consistency` / `stage` entry points.  File trees are modelled as
association lists from relative path strings to entries; machine state
(the mirror store, the staging destination) is passed explicitly.
External helpers that the plugin calls (`hashlib.sha256`,
`buildstream.utils.list_relative_paths`, `utils.sha256sum`,
`utils.copy_files`, `utils.safe_copy`) are not part of this repository;
they are modelled from the spec where noted.
-/

namespace ProjectRef

/-! ### Bytes and SHA-256 -/

/-- A byte string, each element a natural number below 256. -/
abbrev Bytes := List Nat

/-- Truncate to a 32-bit word. -/
def w32 (x : Nat) : Nat := x % 4294967296

/-- Rotate a 32-bit word right by `n` bits. -/
def rotr (n x : Nat) : Nat := w32 (x / 2 ^ n + x % 2 ^ n * 2 ^ (32 - n))

/-- Bitwise complement of a 32-bit word. -/
def compl32 (x : Nat) : Nat := 4294967295 - w32 x

/-- SHA-256 `Ch` function. -/
def ch (x y z : Nat) : Nat := Nat.xor (Nat.land x y) (Nat.land (compl32 x) z)

/-- SHA-256 `Maj` function. -/
def maj (x y z : Nat) : Nat :=
  Nat.xor (Nat.xor (Nat.land x y) (Nat.land x z)) (Nat.land y z)

/-- SHA-256 big sigma 0. -/
def bsig0 (x : Nat) : Nat := Nat.xor (Nat.xor (rotr 2 x) (rotr 13 x)) (rotr 22 x)

/-- SHA-256 big sigma 1. -/
def bsig1 (x : Nat) : Nat := Nat.xor (Nat.xor (rotr 6 x) (rotr 11 x)) (rotr 25 x)

/-- SHA-256 small sigma 0. -/
def ssig0 (x : Nat) : Nat := Nat.xor (Nat.xor (rotr 7 x) (rotr 18 x)) (x / 2 ^ 3)

/-- SHA-256 small sigma 1. -/
def ssig1 (x : Nat) : Nat := Nat.xor (Nat.xor (rotr 17 x) (rotr 19 x)) (x / 2 ^ 10)

/-- The SHA-256 round constants. -/
def K256 : List Nat :=
  [1116352408, 1899447441, 3049323471, 3921009573, 961987163,
   1508970993, 2453635748, 2870763221, 3624381080, 310598401,
   607225278, 1426881987, 1925078388, 2162078206, 2614888103,
   3248222580, 3835390401, 4022224774, 264347078, 604807628,
   770255983, 1249150122, 1555081692, 1996064986, 2554220882,
   2821834349, 2952996808, 3210313671, 3336571891, 3584528711,
   113926993, 338241895, 666307205, 773529912, 1294757372,
   1396182291, 1695183700, 1986661051, 2177026350, 2456956037,
   2730485921, 2820302411, 3259730800, 3345764771, 3516065817,
   3600352804, 4094571909, 275423344, 430227734, 506948616,
   659060556, 883997877, 958139571, 1322822218, 1537002063,
   1747873779, 1955562222, 2024104815, 2227730452, 2361852424,
   2428436474, 2756734187, 3204031479, 3329325298]

/-- The SHA-256 working state: eight 32-bit words. -/
structure H8 where
  a : Nat
  b : Nat
  c : Nat
  d : Nat
  e : Nat
  f : Nat
  g : Nat
  h : Nat
deriving DecidableEq

/-- The SHA-256 initial hash value. -/
def H256 : H8 :=
  ⟨1779033703, 3144134277, 1013904242, 2773480762,
   1359893119, 2600822924, 528734635, 1541459225⟩

/-- One SHA-256 compression round, consuming `k + w` for the round. -/
def round256 (st : H8) (kw : Nat) : H8 :=
  let t1 := w32 (st.h + bsig1 st.e + ch st.e st.f st.g + kw)
  let t2 := w32 (bsig0 st.a + maj st.a st.b st.c)
  ⟨w32 (t1 + t2), st.a, st.b, st.c, w32 (st.d + t1), st.e, st.f, st.g⟩

/-- Group a 64-byte block into sixteen big-endian 32-bit words. -/
def bytesToWords : Bytes → List Nat
  | a :: b :: c :: d :: rest =>
      (a * 16777216 + b * 65536 + c * 256 + d) :: bytesToWords rest
  | _ => []

/-- Extend the 16-word schedule by `n` further words. -/
def extendWords (ws : List Nat) : Nat → List Nat
  | 0 => ws
  | n + 1 =>
      let len := ws.length
      let next := w32 (ssig1 (ws.getD (len - 2) 0) + ws.getD (len - 7) 0 +
                       ssig0 (ws.getD (len - 15) 0) + ws.getD (len - 16) 0)
      extendWords (ws ++ [next]) n

/-- Add two SHA-256 states word-wise, mod 2^32. -/
def addH8 (x y : H8) : H8 :=
  ⟨w32 (x.a + y.a), w32 (x.b + y.b), w32 (x.c + y.c), w32 (x.d + y.d),
   w32 (x.e + y.e), w32 (x.f + y.f), w32 (x.g + y.g), w32 (x.h + y.h)⟩

/-- Compress one 64-byte block into the running state. -/
def compress256 (st : H8) (block : Bytes) : H8 :=
  let ws := extendWords (bytesToWords block) 48
  let kws := List.zipWith (fun k w => w32 (k + w)) K256 ws
  addH8 st (kws.foldl round256 st)

/-- Big-endian encoding of `x` in `n` bytes. -/
def natToBytesBE : Nat → Nat → Bytes
  | 0, _ => []
  | n + 1, x => x / 256 ^ n % 256 :: natToBytesBE n x

/-- SHA-256 message padding: a `0x80` byte, zero fill, 64-bit bit length. -/
def padMessage (m : Bytes) : Bytes :=
  let L := m.length
  let z := (64 + 56 - (L + 1) % 64) % 64
  m ++ [128] ++ List.replicate z 0 ++ natToBytesBE 8 (8 * L)

/-- Split a byte string into `n` successive 64-byte blocks. -/
def blocks64 : Nat → Bytes → List Bytes
  | 0, _ => []
  | n + 1, l => l.take 64 :: blocks64 n (l.drop 64)

/-- Serialize the final state to the 32-byte digest. -/
def serializeH8 (st : H8) : Bytes :=
  natToBytesBE 4 st.a ++ natToBytesBE 4 st.b ++ natToBytesBE 4 st.c ++ natToBytesBE 4 st.d ++
  natToBytesBE 4 st.e ++ natToBytesBE 4 st.f ++ natToBytesBE 4 st.g ++ natToBytesBE 4 st.h

/-- Modelled from the spec: `hashlib.sha256` (Python standard library, not
part of this repository).  Full SHA-256 (FIPS 180-4) over a byte string. -/
def sha256 (m : Bytes) : Bytes :=
  let p := padMessage m
  serializeH8 ((blocks64 (p.length / 64) p).foldl compress256 H256)

/-- Lowercase hex digit for a value below 16. -/
def hexDigit (n : Nat) : Char :=
  if n < 10 then Char.ofNat (48 + n) else Char.ofNat (87 + n)

/-- Lowercase hex rendering of a byte string, two characters per byte. -/
def hexChars : Bytes → List Char
  | [] => []
  | b :: rest => hexDigit (b / 16) :: hexDigit (b % 16) :: hexChars rest

/-- Hex digest of a byte string, as `hashlib`'s `hexdigest` returns it. -/
def sha256hex (m : Bytes) : String := ⟨hexChars (sha256 m)⟩

/-- UTF-8 encoding of a string, as Python's `str.encode` produces it. -/
def utf8Bytes (s : String) : Bytes := s.toUTF8.toList.map (fun b => b.toNat)

/-! ### File trees

A member of a tree is a regular file (with its byte content), a
directory, or a symbolic link (with its literal target text). -/

/-- The content-relevant part of a filesystem member. -/
inductive Entry where
  | dir : Entry
  | symlink (target : String) : Entry
  | file (content : Bytes) : Entry
deriving DecidableEq

/-- A filesystem member together with its metadata: permission mode bits,
modification time, and owner.  The digest must not depend on the last
three fields. -/
structure DiskEntry where
  entry : Entry
  mode : Nat
  mtime : Nat
  owner : Nat
deriving DecidableEq

/-- A directory tree: relative paths (`/`-separated strings) paired with
the entries living there, in arbitrary (filesystem enumeration) order. -/
abbrev DirTree := List (String × DiskEntry)

/-- The relative paths of a tree, in enumeration order. -/
def keys (t : DirTree) : List String := t.map Prod.fst

/-- Modelled from the spec: `buildstream.utils.list_relative_paths` (an
external collaborator, not part of this repository) enumerates the
members of a directory in a deterministic, sorted order by relative
path.  The model sorts the raw enumeration by path. -/
def sortListing (t : DirTree) : DirTree :=
  List.insertionSort (fun a b => a.1 ≤ b.1) t

/-- Forget the metadata of every member, keeping path and entry. -/
def stripMeta (t : DirTree) : List (String × Entry) :=
  t.map (fun p => (p.1, p.2.entry))

/-! ### Path strings

`project_ref.py` splits paths with `os.path.split` and `f.split(os.sep)`
and joins them with `os.path.join`.  The model works on the character
list of the path with separator `/`. -/

/-- Split a character list at every `/`, like Python's `str.split('/')`. -/
def splitSep (cs : List Char) : List (List Char) :=
  cs.foldr
    (fun c acc =>
      if c = '/' then [] :: acc
      else match acc with
        | [] => [[c]]
        | a :: as => (c :: a) :: as)
    [[]]

/-- Join components with `/`, like `os.path.join` on relative parts. -/
def joinSep : List (List Char) → List Char
  | [] => []
  | [a] => a
  | a :: rest => a ++ '/' :: joinSep rest

/-- The `/`-separated components of a path string. -/
def parts (p : String) : List (List Char) := splitSep p.data

/-- The head of `os.path.split`: everything before the last `/`, or the
empty string when the path has no directory component. -/
def splitBase (p : String) : String := ⟨joinSep (parts p).dropLast⟩

/-- The tail of `os.path.basename`: the component after the last `/`. -/
def baseName (p : String) : String := ⟨(parts p).getLastD []⟩

/-- The proper ancestor directories of a path, shortest first:
`dirs = f.split(os.sep); os.path.join(*dirs[:i])` for `0 < i < len`. -/
def ancestors (p : String) : List String :=
  (List.range ((parts p).length - 1)).map (fun i => ⟨joinSep ((parts p).take (i + 1))⟩)

/-! ### The digest computation (`unique_key`, `_generate_ref`) -/

/-- Per-member token, translated from `unique_key` in `project_ref.py`:
`"0"` for a directory, the link target for a symbolic link, and the
SHA-256 hex digest of the content for a regular file (`utils.sha256sum`,
modelled from the spec as the content hash). -/
def unique_key : Entry → String
  | .dir => "0"
  | .symlink target => target
  | .file content => sha256hex content

/-- A subject is either a directory tree or a single regular file. -/
inductive SubjectData where
  | dirSubject (tree : DirTree) : SubjectData
  | fileSubject (content : Bytes) (mode : Nat) : SubjectData
deriving DecidableEq

/-- The sequence of `h.update(...)` byte strings fed to the hasher in
`_generate_ref`: for each pair, first the relative path, then the token. -/
def hashFeed : List (String × String) → Bytes → Bytes
  | [], acc => acc
  | (rel, sha) :: rest, acc => hashFeed rest (acc ++ utf8Bytes rel ++ utf8Bytes sha)

/-- Translated from `ProjectRefSource._generate_ref`: a directory subject
contributes its sorted member listing, a single-file subject the one
member named by the declared project-relative `path`; each member is
paired with its `unique_key` token and the pairs are folded into one
SHA-256 hasher. -/
def generate_ref (path : String) (data : SubjectData) : String :=
  let filelist : List (String × Entry) :=
    match data with
    | .dirSubject t => (sortListing t).map (fun p => (p.1, p.2.entry))
    | .fileSubject content _ => [(path, .file content)]
  let unique_parts := filelist.map (fun pe => (pe.1, unique_key pe.2))
  sha256hex (hashFeed unique_parts [])

/-- Per-member token as the spec words it (section 4.1, step 2). -/
def specToken : Entry → String
  | .dir => "0"
  | .symlink target => target
  | .file content => sha256hex content

/-- The digest computation as the spec describes it: enumerate members in
sorted order, pair each with its token, and hash the concatenation of
`UTF-8 path bytes ++ UTF-8 token bytes` over all members in order. -/
def compute_digest_spec (path : String) (data : SubjectData) : String :=
  let members : List (String × Entry) :=
    match data with
    | .dirSubject t => (sortListing t).map (fun p => (p.1, p.2.entry))
    | .fileSubject content _ => [(path, .file content)]
  sha256hex (List.flatten (members.map
    (fun m => utf8Bytes m.1 ++ utf8Bytes (specToken m.2))))

/-! ### The mirror store and `_ensure_mirror` -/

/-- A mirror entry on disk, the object `os.rename` moves into the store:
for a directory subject the copied directory tree; for a single-file
subject the bare copied file itself, because `_ensure_mirror` rebinds
`targetdir` to `os.path.join(targetdir, self.path)` (the file) before
hashing and renames exactly that path. -/
inductive MirrorEntry where
  | tree (t : DirTree) : MirrorEntry
  | plain (de : DiskEntry) : MirrorEntry
deriving DecidableEq

/-- The mirror store: one named entry per name in the mirror root.
Names are unique on a real filesystem; theorems that need this carry a
`(storeKeys st).Nodup` hypothesis. -/
abbrev MirrorStore := List (String × MirrorEntry)

/-- The names present in the store. -/
def storeKeys (st : MirrorStore) : List String := st.map Prod.fst

/-- Whether `os.path.exists(mirror_root/name)` holds: translated from
`_get_mirror_file`.  Joining the empty name yields the mirror root
itself, which always exists. -/
def mirror_exists (st : MirrorStore) (name : String) : Bool :=
  name = "" || (st.find? (fun p => p.1 == name)).isSome

/-- Look up the entry stored under a name. -/
def storeLookup (st : MirrorStore) (name : String) : Option MirrorEntry :=
  (st.find? (fun p => p.1 == name)).map Prod.snd

/-- Translated from the publish step of `_ensure_mirror`: if an entry
already exists under the digest it is removed (`utils._force_rmtree`),
then the scratch object is renamed into place (`os.rename`). -/
def storePublish (st : MirrorStore) (name : String) (t : MirrorEntry) : MirrorStore :=
  (name, t) :: st.eraseP (fun p => p.1 == name)

/-- How many entries of the store carry a given name. -/
def countKey (st : MirrorStore) (name : String) : Nat :=
  st.countP (fun p => p.1 == name)

/-- The plugin state: the configured project-relative `path`, the tree or
file it resolves to, the declared `ref`, and the mirror store directory. -/
structure SourceState where
  path : String
  data : SubjectData
  ref : Option String
  mirror : MirrorStore
deriving DecidableEq

/-- Filesystem errors surfaced by the scratch-copy phase. -/
inductive OsError where
  | fileExists : OsError
deriving DecidableEq

/-- The object that the publish step of `_ensure_mirror` renames into
the store.  For a directory subject, the verbatim scratch copy of the
tree (`utils.copy_files`, modelled from the spec as preserving relative
layout, entries and metadata).  For a single-file subject, the bare
copied file (content and permission bits preserved by `safe_copy`):
`targetdir` is rebound to the copied file before the rename, so the
parent directories `os.makedirs` created in the scratch are left behind
in the temporary directory and never published. -/
def scratchOf (s : SourceState) : MirrorEntry :=
  match s.data with
  | .dirSubject t => .tree t
  | .fileSubject content mode => .plain ⟨.file content, mode, 0, 0⟩

/-- The members of the subject as resolved on disk, as the spec's
resolved tree: the tree itself for a directory subject, the single
member named by the declared project-relative path for a single-file
subject. -/
def subjectMembers (s : SourceState) : DirTree :=
  match s.data with
  | .dirSubject t => t
  | .fileSubject content mode => [(s.path, ⟨.file content, mode, 0, 0⟩)]

/-- Whether the scratch-copy phase succeeds.  For a single-file subject
whose declared path has no directory component, `os.path.split` returns
an empty head, so `_ensure_mirror` calls `os.makedirs` on the
already-created scratch directory itself, which raises
`FileExistsError`. -/
def scratchOK (s : SourceState) : Prop :=
  match s.data with
  | .dirSubject _ => True
  | .fileSubject _ _ => 2 ≤ (parts s.path).length

instance (s : SourceState) : Decidable (scratchOK s) := by
  unfold scratchOK
  exact match s.data with
  | .dirSubject _ => inferInstanceAs (Decidable True)
  | .fileSubject _ _ => inferInstanceAs (Decidable (2 ≤ _))

/-- Translated from `ProjectRefSource._ensure_mirror`: copy the subject
into a scratch directory, compute the digest of the copy (of the
rebound `targetdir`, i.e. of the bare file for a single-file subject),
then atomically rename that object into the store under the digest
(replacing any existing entry).  The returned state reflects the mirror
store after the call; on the `FileExistsError` path nothing has been
published. -/
def ensure_mirror (s : SourceState) : SourceState × Except OsError String :=
  match s.data with
  | .dirSubject t =>
      let sha := generate_ref s.path s.data
      ({ s with mirror := storePublish s.mirror sha (.tree t) }, .ok sha)
  | .fileSubject content mode =>
      if 2 ≤ (parts s.path).length then
        let sha := generate_ref s.path s.data
        ({ s with mirror := storePublish s.mirror sha (.plain ⟨.file content, mode, 0, 0⟩) },
         .ok sha)
      else (s, .error .fileExists)

/-! ### `fetch`, `track`, `get_consistency` -/

/-- Errors raised by `fetch`: the `SourceError` whose message carries the
subject's path, the computed digest and the declared ref, or a
propagated filesystem error. -/
inductive FetchError where
  | mismatch (path : String) (actual : String) (expected : Option String) : FetchError
  | os (e : OsError) : FetchError
deriving DecidableEq

/-- Translated from `ProjectRefSource.fetch`: populate the mirror, then
raise iff the computed digest differs from the declared ref.  The first
component is the state after the call (mirror mutations survive the
raise); the second is the raised error, if any. -/
def fetch (s : SourceState) : SourceState × Option FetchError :=
  match ensure_mirror s with
  | (s', .error e) => (s', some (.os e))
  | (s', .ok sha) =>
      if s.ref = some sha then (s', none)
      else (s', some (.mismatch s.path sha s.ref))

/-- The non-fatal warning `track` emits, carrying the tracked path, the
current ref and the new ref. -/
structure Warning where
  path : String
  current : String
  newRef : String
deriving DecidableEq

/-- Translated from `ProjectRefSource.track`: populate the mirror
unconditionally, warn (Python truthiness: only a non-`None`, nonempty
ref fires) when the declared ref differs from the new digest, and return
the new digest. -/
def track (s : SourceState) : SourceState × Except OsError (String × Option Warning) :=
  match ensure_mirror s with
  | (s', .error e) => (s', .error e)
  | (s', .ok newRef) =>
      let w : Option Warning :=
        match s.ref with
        | some cur => if cur ≠ "" ∧ cur ≠ newRef then some ⟨s.path, cur, newRef⟩ else none
        | none => none
      (s', .ok (newRef, w))

/-- The three consistency states of the buildstream `Consistency` enum as
the plugin uses them (the spec's `ABSENT` is `INCONSISTENT`). -/
inductive Consistency where
  | INCONSISTENT : Consistency
  | RESOLVED : Consistency
  | CACHED : Consistency
deriving DecidableEq

/-- Translated from `ProjectRefSource.get_consistency`: `INCONSISTENT`
when no ref is declared, `CACHED` when the mirror file named by the ref
exists, `RESOLVED` otherwise.  The method only queries the filesystem;
the returned state is the input state. -/
def get_consistency (s : SourceState) : Consistency × SourceState :=
  match s.ref with
  | none => (.INCONSISTENT, s)
  | some r => (if mirror_exists s.mirror r then .CACHED else .RESOLVED, s)

/-! ### Staging (`stage`)

The destination directory is a finite map from relative paths to disk
entries. -/

/-- The staging destination. -/
abbrev Dest := String → Option DiskEntry

/-- A destination with nothing staged yet. -/
def emptyDest : Dest := fun _ => none

/-- Copy one member into the destination at its path.  Models the copies
done by `utils.copy_files` / `utils.safe_copy` (modelled from the spec:
plain copies, no hard links, preserving content and permission bits). -/
def place (d : Dest) (p : String) (de : DiskEntry) : Dest :=
  fun q => if q = p then some de else d q

/-- `os.chmod`: set the permission mode of an existing path. -/
def setMode (d : Dest) (p : String) (m : Nat) : Dest :=
  fun q => if q = p then (d p).map (fun de => { de with mode := m }) else d q

/-- Mode `rwxr-xr-x` (octal 755), the normalized directory/executable mode. -/
def mode755 : Nat := 493

/-- Mode `rw-r--r--` (octal 644), the normalized plain-file mode. -/
def mode644 : Nat := 420

/-- The chmod loop body over the proper ancestors of a staged member:
every parent directory is set to `rwxr-xr-x`.  The source asserts that
each ancestor is a real directory and not a symbolic link; under the
wellformedness hypotheses used below every ancestor is a staged
directory, so the assertion holds. -/
def chmodAncestors (d : Dest) (f : String) : Dest :=
  (ancestors f).foldl (fun d a => setMode d a mode755) d

/-- The per-member chmod of `stage`: symbolic links are left untouched,
directories get `rwxr-xr-x`, regular files get `rwxr-xr-x` when their
current mode has the owner-executable bit (`S_IXUSR`) and `rw-r--r--`
otherwise. -/
def chmodEntry (d : Dest) (f : String) : Dest :=
  match d f with
  | none => d
  | some de =>
      match de.entry with
      | .symlink _ => d
      | .dir => setMode d f mode755
      | .file _ => setMode d f (if Nat.land de.mode 64 ≠ 0 then mode755 else mode644)

/-- One iteration of the `for f in files` loop of `stage`. -/
def stageStep (d : Dest) (f : String) : Dest := chmodEntry (chmodAncestors d f) f

/-- Translated from `ProjectRefSource.stage`, directory case: copy the
sorted member listing into the destination, then run the chmod loop over
the same listing. -/
def stageDir (t : DirTree) (d : Dest) : Dest :=
  let files := sortListing t
  let copied := files.foldl (fun d p => place d p.1 p.2) d
  files.foldl (fun d p => stageStep d p.1) copied

/-- Translated from `ProjectRefSource.stage`: a directory subject stages
its whole listing; a single-file subject is copied to
`os.path.join(directory, os.path.basename(self.path))` and the chmod
loop runs on `[basename]`. -/
def stage (s : SourceState) (d : Dest) : Dest :=
  match s.data with
  | .dirSubject t => stageDir t d
  | .fileSubject content mode =>
      let bn := baseName s.path
      stageStep (place d bn ⟨.file content, mode, 0, 0⟩) bn

/-- The normalized entry a staged member ends up as: directories at mode
755, regular files at 755 or 644 by their owner-executable bit, symbolic
links untouched. -/
def stagedEntry (de : DiskEntry) : DiskEntry :=
  match de.entry with
  | .dir => { de with mode := mode755 }
  | .file _ => { de with mode := if Nat.land de.mode 64 ≠ 0 then mode755 else mode644 }
  | .symlink _ => de

/-- A path is present in a tree as a directory member. -/
def dirAt (t : DirTree) (a : String) : Prop := ∃ dm, (a, dm) ∈ t ∧ dm.entry = .dir

instance (t : DirTree) (a : String) : Decidable (dirAt t a) :=
  decidable_of_iff (∃ q ∈ t, q.1 = a ∧ q.2.entry = .dir)
    ⟨fun ⟨q, hq, h1, h2⟩ => ⟨q.2, by rw [← h1]; exact ⟨hq, h2⟩⟩,
     fun ⟨dm, hm, h2⟩ => ⟨(a, dm), hm, rfl, h2⟩⟩

/-- Wellformedness of a tree as a filesystem listing: member paths are
unique, and every proper ancestor of a member path is itself listed as a
directory member. -/
def TreeWF (t : DirTree) : Prop :=
  (keys t).Nodup ∧ ∀ q ∈ t, ∀ a ∈ ancestors q.1, dirAt t a

instance (t : DirTree) : Decidable (TreeWF t) := instDecidableAnd

instance {ε α : Type} [DecidableEq ε] [DecidableEq α] : DecidableEq (Except ε α) :=
  fun a b =>
    match a, b with
    | .ok x, .ok y =>
        decidable_of_iff (x = y) ⟨fun h => by rw [h], fun h => by cases h; rfl⟩
    | .error x, .error y =>
        decidable_of_iff (x = y) ⟨fun h => by rw [h], fun h => by cases h; rfl⟩
    | .ok _, .error _ => isFalse (fun h => by cases h)
    | .error _, .ok _ => isFalse (fun h => by cases h)

instance : IsTotal (String × DiskEntry) (fun a b => a.1 ≤ b.1) :=
  ⟨fun a b => le_total a.1 b.1⟩

instance : IsTrans (String × DiskEntry) (fun a b => a.1 ≤ b.1) :=
  ⟨fun _ _ _ h1 h2 => le_trans h1 h2⟩

/-! ### Example states used by witnesses and counterexamples -/

/-- A single-file subject whose declared path has no directory component:
on this input the scratch-copy phase of `_ensure_mirror` raises
`FileExistsError`. -/
def parentlessState : SourceState := ⟨"bob.txt", .fileSubject [104, 105] 420, some "", []⟩

/-- A single-file subject with a parent path segment. -/
def exFileState : SourceState := ⟨"files/bob.txt", .fileSubject [104, 105] 420, none, []⟩

/-- A small directory tree. -/
def exTree : DirTree := [("a.txt", ⟨.file [104], 420, 3, 5⟩)]

/-- The same tree with different permission bits, timestamp and owner. -/
def exTreeMeta : DirTree := [("a.txt", ⟨.file [104], 493, 9, 1⟩)]

/-- A directory subject over `exTree` with no declared ref. -/
def exDirState : SourceState := ⟨"sally", .dirSubject exTree, none, []⟩

/-- A directory subject with a declared ref that cannot be a digest. -/
def exDirStateShortRef : SourceState := ⟨"sally", .dirSubject exTree, some "x", []⟩

/-- A directory subject with declared empty-string ref. -/
def exDirStateEmptyRef : SourceState := ⟨"sally", .dirSubject exTree, some "", []⟩

/-- A directory tree with a directory, an executable file, a plain file
and a symbolic link. -/
def exStageTree : DirTree :=
  [("sally", ⟨.dir, 448, 0, 0⟩), ("sally/x.sh", ⟨.file [1, 2], 484, 3, 4⟩),
   ("sally/a.txt", ⟨.file [3], 384, 5, 6⟩), ("sally/ln", ⟨.symlink "a.txt", 511, 7, 8⟩)]

/-- A directory subject over `exStageTree`. -/
def exStageState : SourceState := ⟨"sally", .dirSubject exStageTree, none, []⟩

/-! ### Helper lemmas -/

theorem hashFeed_eq (l : List (String × String)) (acc : Bytes) :
    hashFeed l acc = acc ++ (l.map (fun pr => utf8Bytes pr.1 ++ utf8Bytes pr.2)).flatten := by
  induction l generalizing acc with
  | nil => simp [hashFeed]
  | cons hd tl ih => simp [hashFeed, ih, List.append_assoc]

theorem specToken_eq_unique_key (e : Entry) : specToken e = unique_key e := by
  cases e <;> rfl

/-- C1: for every subject, the digest computation enumerates members in
sorted order by relative path (a single-file subject contributing the
one member named by its declared project-relative path), assigns each
member a token (`"0"` for a directory, the link target for a symbolic
link, the SHA-256 content digest for a regular file), and returns the
hex digest of a single SHA-256 fold feeding, per member in order, the
UTF-8 bytes of the path then of the token. -/
theorem generate_ref_matches_spec (path : String) (data : SubjectData) :
    generate_ref path data = compute_digest_spec path data := by
  have hfeed : ∀ ms : List (String × Entry),
      hashFeed (ms.map (fun pe => (pe.1, unique_key pe.2))) [] =
        List.flatten (ms.map (fun m => utf8Bytes m.1 ++ utf8Bytes (specToken m.2))) := by
    intro ms
    rw [hashFeed_eq, List.nil_append, List.map_map]
    simp only [Function.comp_def, specToken_eq_unique_key]
  cases data with
  | dirSubject t =>
      show sha256hex (hashFeed (((sortListing t).map (fun p => (p.1, p.2.entry))).map
          (fun pe => (pe.1, unique_key pe.2))) []) = _
      rw [hfeed]
      rfl
  | fileSubject content mode =>
      show sha256hex (hashFeed ([(path, Entry.file content)].map
          (fun pe => (pe.1, unique_key pe.2))) []) = _
      rw [hfeed]
      rfl

theorem natToBytesBE_length (n x : Nat) : (natToBytesBE n x).length = n := by
  induction n generalizing x with
  | zero => rfl
  | succ n ih => simp [natToBytesBE, ih]

theorem sha256_length (m : Bytes) : (sha256 m).length = 32 := by
  simp [sha256, serializeH8, natToBytesBE_length]

theorem hexChars_length (m : Bytes) : (hexChars m).length = 2 * m.length := by
  induction m with
  | nil => rfl
  | cons b rest ih =>
      simp only [hexChars, List.length_cons, ih, List.length]
      ring

theorem sha256hex_length (m : Bytes) : (sha256hex m).length = 64 := by
  show (hexChars (sha256 m)).length = 64
  rw [hexChars_length, sha256_length]

theorem generate_ref_length (path : String) (data : SubjectData) :
    (generate_ref path data).length = 64 := by
  cases data <;> exact sha256hex_length _

theorem keys_stripMeta (t : DirTree) : (stripMeta t).map Prod.fst = keys t := by
  simp [stripMeta, keys, List.map_map, Function.comp_def]

theorem sortListing_perm (t : DirTree) : List.Perm (sortListing t) t :=
  List.perm_insertionSort _ t

theorem sortListing_sorted (t : DirTree) :
    (sortListing t).Pairwise (fun a b => a.1 ≤ b.1) :=
  List.sorted_insertionSort _ t

/-- C8: the digest of a directory tree is a function of the multiset of
(relative path, entry) pairs alone — independent of filesystem
enumeration order and of the permission bits, timestamps and ownership
metadata.  the permutation hypothesis says the copy preserves
relative layout, link targets and file bytes. -/
theorem digest_ignores_order_and_meta (p : String) (t₁ t₂ : DirTree)
    (hperm : List.Perm (stripMeta t₁) (stripMeta t₂)) (hnd : (keys t₁).Nodup) :
    generate_ref p (.dirSubject t₁) = generate_ref p (.dirSubject t₂) := by
  have strip' : (String × DiskEntry) → (String × Entry) := fun q => (q.1, q.2.entry)
  have hmap : ∀ t : DirTree, List.Perm ((sortListing t).map (fun q => (q.1, q.2.entry))) (stripMeta t) :=
    fun t => (sortListing_perm t).map _
  have hkeys : ∀ t : DirTree,
      List.Perm (((sortListing t).map (fun q => (q.1, q.2.entry))).map Prod.fst) (keys t) := by
    intro t
    rw [← keys_stripMeta]
    exact (hmap t).map _
  have hnd₂ : (keys t₂).Nodup := by
    rw [← keys_stripMeta]
    exact ((hperm.map Prod.fst).nodup_iff).mp (by rw [keys_stripMeta]; exact hnd)
  have hstrict : ∀ t : DirTree, (keys t).Nodup →
      ((sortListing t).map (fun q => (q.1, q.2.entry))).Pairwise (fun a b => a.1 < b.1) := by
    intro t hn
    have hle : ((sortListing t).map (fun q => (q.1, q.2.entry))).Pairwise
        (fun a b => a.1 ≤ b.1) :=
      List.pairwise_map.mpr (sortListing_sorted t)
    have hne : ((sortListing t).map (fun q => (q.1, q.2.entry))).Pairwise
        (fun a b => a.1 ≠ b.1) :=
      List.pairwise_map.mp (((hkeys t).nodup_iff).mpr hn)
    exact (hle.and hne).imp (fun h => lt_of_le_of_ne h.1 h.2)
  have hmain : (sortListing t₁).map (fun q => (q.1, q.2.entry)) =
      (sortListing t₂).map (fun q => (q.1, q.2.entry)) := by
    haveI : IsAntisymm (String × Entry) (fun a b => a.1 < b.1) :=
      ⟨fun a b h1 h2 => absurd (h1.trans h2) (lt_irrefl _)⟩
    exact List.eq_of_perm_of_sorted
      (((hmap t₁).trans hperm).trans (hmap t₂).symm)
      (hstrict t₁ hnd) (hstrict t₂ hnd₂)
  show sha256hex (hashFeed (((sortListing t₁).map (fun q => (q.1, q.2.entry))).map
      (fun pe => (pe.1, unique_key pe.2))) []) = _
  rw [hmain]
  rfl

/-! ### Mirror store lemmas -/

theorem storeLookup_publish_self (st : MirrorStore) (d : String) (t : MirrorEntry) :
    storeLookup (storePublish st d t) d = some t := by
  simp [storeLookup, storePublish]

theorem countKey_eq_zero (st : MirrorStore) (d : String) (h : d ∉ storeKeys st) :
    countKey st d = 0 := by
  rw [countKey, List.countP_eq_zero]
  intro q hq hqd
  exact h (List.mem_map.mpr ⟨q, hq, by simpa using hqd⟩)

theorem countKey_eraseP (st : MirrorStore) (d : String) (h : (storeKeys st).Nodup) :
    countKey (st.eraseP (fun p => p.1 == d)) d = 0 := by
  induction st with
  | nil => rfl
  | cons hd tl ih =>
      rcases List.nodup_cons.mp h with ⟨hhd, htl⟩
      by_cases hd1 : hd.1 = d
      · rw [List.eraseP_cons_of_pos (by simpa using hd1)]
        exact countKey_eq_zero tl d (by rw [← hd1]; exact hhd)
      · rw [List.eraseP_cons_of_neg (by simpa using hd1)]
        have h0 : countKey (List.eraseP (fun p => p.1 == d) tl) d = 0 := ih htl
        simpa [countKey, hd1] using h0

theorem ensure_mirror_ok (s : SourceState) (hp : scratchOK s) :
    ensure_mirror s =
      ({ s with mirror := storePublish s.mirror (generate_ref s.path s.data) (scratchOf s) },
       .ok (generate_ref s.path s.data)) := by
  cases hd : s.data with
  | dirSubject t => simp [ensure_mirror, hd, scratchOf]
  | fileSubject content mode =>
      have h2 : 2 ≤ (parts s.path).length := by
        have := hp
        unfold scratchOK at this
        rw [hd] at this
        exact this
      simp [ensure_mirror, hd, scratchOf, h2]

/-! ### C5, C9, C10: mirror population -/

/-- C5 (amended): every mirror entry published by the mirror-population
step is a store entry named by the digest's hex string; for a directory
subject it contains the subject's tree in its original relative layout,
but for a single-file subject the published entry is the bare copied
file itself (content and permission bits preserved), renamed to the
digest name — the declared parent path segment is created only in the
scratch directory and is not preserved inside the entry. -/
theorem ensure_mirror_publishes_entry (s : SourceState) (hp : scratchOK s) :
    (ensure_mirror s).2 = .ok (generate_ref s.path s.data) ∧
    storeLookup (ensure_mirror s).1.mirror (generate_ref s.path s.data) = some (scratchOf s) ∧
    (∀ t, s.data = .dirSubject t → scratchOf s = .tree t) ∧
    (∀ content mode, s.data = .fileSubject content mode →
      scratchOf s = .plain ⟨.file content, mode, 0, 0⟩) := by
  rw [ensure_mirror_ok s hp]
  refine ⟨rfl, storeLookup_publish_self _ _ _, ?_, ?_⟩
  · intro t ht
    simp [scratchOf, ht]
  · intro content mode hm
    simp [scratchOf, hm]

theorem ensure_mirror_publishes_entry_witness :
    scratchOK exFileState ∧
    storeLookup (ensure_mirror exFileState).1.mirror
      (generate_ref exFileState.path exFileState.data) = some (scratchOf exFileState) :=
  ⟨by decide, (ensure_mirror_publishes_entry exFileState (by decide)).2.1⟩

/-- C5, the claim as frozen, is false: for the single-file subject with
declared path `files/bob.txt`, the published mirror entry is the bare
copied file renamed to the digest name (`_ensure_mirror` rebinds
`targetdir` to the copied file and `os.rename` moves exactly that), so
the entry is not a directory containing the subject's tree and the
parent segment `files` is not preserved inside it. -/
theorem ensure_mirror_entry_counterexample :
    storeLookup (ensure_mirror exFileState).1.mirror
        (generate_ref exFileState.path exFileState.data) =
      some (.plain ⟨.file [104, 105], 420, 0, 0⟩) ∧
    ¬ ∃ t : DirTree,
        storeLookup (ensure_mirror exFileState).1.mirror
          (generate_ref exFileState.path exFileState.data) = some (.tree t) := by
  have hok := ensure_mirror_ok exFileState (by decide)
  have hmirror : (ensure_mirror exFileState).1.mirror =
      storePublish exFileState.mirror (generate_ref exFileState.path exFileState.data)
        (scratchOf exFileState) := by
    rw [hok]
  have hscr : scratchOf exFileState =
      .plain ⟨.file [104, 105], 420, 0, 0⟩ := rfl
  have hlook : storeLookup (ensure_mirror exFileState).1.mirror
      (generate_ref exFileState.path exFileState.data) =
        some (.plain ⟨.file [104, 105], 420, 0, 0⟩) := by
    rw [hmirror, hscr]
    exact storeLookup_publish_self _ _ _
  refine ⟨hlook, ?_⟩
  intro ⟨t, ht⟩
  rw [hlook] at ht
  injection ht with ht'
  cases ht'

/-- C9 (amended): for an unchanged subject that is a directory or whose
declared path contains a directory separator, running the
mirror-population step twice returns the same digest both times, and the
store afterwards holds exactly one entry under that digest, containing
the scratch copy (replacement, not a merge or duplicate). -/
theorem ensure_mirror_idempotent (s : SourceState) (hp : scratchOK s)
    (hnd : (storeKeys s.mirror).Nodup) :
    (ensure_mirror s).2 = .ok (generate_ref s.path s.data) ∧
    (ensure_mirror (ensure_mirror s).1).2 = .ok (generate_ref s.path s.data) ∧
    countKey (ensure_mirror (ensure_mirror s).1).1.mirror (generate_ref s.path s.data) = 1 ∧
    storeLookup (ensure_mirror (ensure_mirror s).1).1.mirror (generate_ref s.path s.data) =
      some (scratchOf s) := by
  have h1 := ensure_mirror_ok s hp
  have e1 : (ensure_mirror s).1 =
      { s with mirror := storePublish s.mirror (generate_ref s.path s.data) (scratchOf s) } := by
    rw [h1]
  have hp1 : scratchOK ((ensure_mirror s).1) := by rw [e1]; exact hp
  have h2 := ensure_mirror_ok _ hp1
  have hpath : (ensure_mirror s).1.path = s.path := by rw [e1]
  have hdata : (ensure_mirror s).1.data = s.data := by rw [e1]
  have hscr : scratchOf ((ensure_mirror s).1) = scratchOf s := by
    rw [e1]
    cases hd : s.data <;> simp [scratchOf, hd]
  rw [hpath, hdata, hscr] at h2
  have e2 : (ensure_mirror (ensure_mirror s).1).1.mirror =
      storePublish (ensure_mirror s).1.mirror (generate_ref s.path s.data) (scratchOf s) := by
    rw [h2]
  refine ⟨by rw [h1], by rw [h2], ?_, ?_⟩
  · rw [e2, e1]
    show countKey (storePublish (storePublish s.mirror _ _) _ _) _ = 1
    unfold storePublish
    rw [List.eraseP_cons_of_pos (by simp)]
    unfold countKey
    have h0 := countKey_eraseP s.mirror (generate_ref s.path s.data) hnd
    unfold countKey at h0
    simp [List.countP_cons, h0]
  · rw [e2]
    exact storeLookup_publish_self _ _ _

theorem ensure_mirror_idempotent_witness :
    scratchOK exDirState ∧ (storeKeys exDirState.mirror).Nodup ∧
    countKey (ensure_mirror (ensure_mirror exDirState).1).1.mirror
      (generate_ref exDirState.path exDirState.data) = 1 :=
  ⟨by decide, by decide, (ensure_mirror_idempotent exDirState (by decide) (by decide)).2.2.1⟩

/-- C9, the claim as frozen, is false: on a single-file subject whose
declared path has no directory component the mirror-population step does
not return a digest at all; it raises `FileExistsError` from
`os.makedirs(os.path.join(targetdir, ''))`. -/
theorem ensure_mirror_claim_counterexample :
    ¬ ∃ d, (ensure_mirror parentlessState).2 = Except.ok d := by
  intro ⟨d, h⟩
  have he : (ensure_mirror parentlessState).2 = Except.error OsError.fileExists := by decide
  rw [he] at h
  cases h

theorem fetch_ok_reduce (s : SourceState) (hp : scratchOK s) :
    fetch s =
      (if s.ref = some (generate_ref s.path s.data) then
        ({ s with mirror := storePublish s.mirror (generate_ref s.path s.data) (scratchOf s) },
         none)
       else
        ({ s with mirror := storePublish s.mirror (generate_ref s.path s.data) (scratchOf s) },
         some (.mismatch s.path (generate_ref s.path s.data) s.ref))) := by
  unfold fetch
  rw [ensure_mirror_ok s hp]

/-- C10: when `fetch` raises on a digest mismatch, the mirror store has
already been mutated before the raise: the entry named by the freshly
computed digest exists afterwards with the new scratch copy (replacing
any previous entry under that digest — with unique store names exactly
one entry remains), while the declared ref is left unchanged. -/
theorem fetch_mutates_store_before_error (s : SourceState) (r : String)
    (href : s.ref = some r) (hp : scratchOK s)
    (hne : r ≠ generate_ref s.path s.data) (hnd : (storeKeys s.mirror).Nodup) :
    (fetch s).2 = some (.mismatch s.path (generate_ref s.path s.data) (some r)) ∧
    storeLookup (fetch s).1.mirror (generate_ref s.path s.data) = some (scratchOf s) ∧
    countKey (fetch s).1.mirror (generate_ref s.path s.data) = 1 ∧
    (fetch s).1.ref = s.ref := by
  have hcond : ¬ (s.ref = some (generate_ref s.path s.data)) := by
    rw [href]
    intro h
    exact hne (by injection h)
  rw [fetch_ok_reduce s hp, if_neg hcond]
  refine ⟨by rw [href], storeLookup_publish_self _ _ _, ?_, rfl⟩
  show countKey (storePublish s.mirror _ _) _ = 1
  unfold storePublish countKey
  have h0 := countKey_eraseP s.mirror (generate_ref s.path s.data) hnd
  unfold countKey at h0
  simp [List.countP_cons, h0]

theorem fetch_mutates_store_before_error_witness :
    exDirStateShortRef.ref = some "x" ∧ scratchOK exDirStateShortRef ∧
    ("x" ≠ generate_ref exDirStateShortRef.path exDirStateShortRef.data) ∧
    storeLookup (fetch exDirStateShortRef).1.mirror
      (generate_ref exDirStateShortRef.path exDirStateShortRef.data) =
      some (scratchOf exDirStateShortRef) := by
  have hne : ("x" : String) ≠ generate_ref exDirStateShortRef.path exDirStateShortRef.data := by
    intro h
    have h64 := generate_ref_length exDirStateShortRef.path exDirStateShortRef.data
    rw [← h] at h64
    exact absurd h64 (by decide)
  exact ⟨rfl, by decide, hne,
    (fetch_mutates_store_before_error exDirStateShortRef "x" rfl (by decide) hne
      (by decide)).2.1⟩

/-! ### C2, C3: fetch and track reconciliation -/

/-- C2 (amended): for a subject with a declared ref that is a directory
or whose declared path contains a directory separator, `fetch` raises an
error iff the digest computed by the mirror-population step differs from
the declared ref, and any raised error is the `SourceError` reporting
the subject's path, the actual (computed) digest and the expected
(declared) ref; when they agree, `fetch` returns without error. -/
theorem fetch_mismatch_iff (s : SourceState) (r : String)
    (href : s.ref = some r) (hp : scratchOK s) :
    ((fetch s).2 = none ↔ generate_ref s.path s.data = r) ∧
    (∀ e, (fetch s).2 = some e →
      e = .mismatch s.path (generate_ref s.path s.data) (some r)) := by
  rw [fetch_ok_reduce s hp, href]
  by_cases h : generate_ref s.path s.data = r
  · rw [if_pos (by rw [h])]
    exact ⟨by simpa using h, by intro e he; cases he⟩
  · rw [if_neg (by simpa [eq_comm] using h)]
    exact ⟨by simpa using h, by intro e he; injection he with he'; rw [← he']⟩

theorem fetch_mismatch_iff_witness :
    exDirStateEmptyRef.ref = some "" ∧ scratchOK exDirStateEmptyRef ∧
    ((fetch exDirStateEmptyRef).2 = none ↔
      generate_ref exDirStateEmptyRef.path exDirStateEmptyRef.data = "") :=
  ⟨rfl, by decide, (fetch_mismatch_iff exDirStateEmptyRef "" rfl (by decide)).1⟩

/-- C2, the claim as frozen, is false: on a single-file subject whose
declared path has no directory component, `fetch` raises the propagated
`FileExistsError` from the mirror-population step — an error that is not
the digest-mismatch report — regardless of any digest comparison. -/
theorem fetch_claim_counterexample :
    ¬ (∀ e, (fetch parentlessState).2 = some e →
        ∃ a, e = .mismatch parentlessState.path a parentlessState.ref) := by
  intro h
  obtain ⟨a, ha⟩ := h (.os .fileExists) (by decide)
  cases ha

/-- C3 (amended): for a subject that is a directory or whose declared
path contains a directory separator, and whose declared ref (when
present) is a valid nonempty digest string as the spec's configuration
precondition guarantees, `track` recomputes the digest via the
mirror-population step and returns it without raising; it emits a
warning iff a ref was already declared and differs from the new digest,
and the warning carries the tracked path, the current ref and the new
ref. -/
theorem track_warns_iff (s : SourceState) (hp : scratchOK s)
    (hval : ∀ r, s.ref = some r → r ≠ "") :
    ∃ w, (track s).2 = .ok (generate_ref s.path s.data, w) ∧
      (w ≠ none ↔ ∃ r, s.ref = some r ∧ r ≠ generate_ref s.path s.data) ∧
      (∀ r, s.ref = some r → r ≠ generate_ref s.path s.data →
        w = some ⟨s.path, r, generate_ref s.path s.data⟩) := by
  unfold track
  rw [ensure_mirror_ok s hp]
  cases hr : s.ref with
  | none =>
      refine ⟨none, by simp, by simp, ?_⟩
      intro r' hr' _
      cases hr'
  | some r =>
      by_cases hd : r = generate_ref s.path s.data
      · refine ⟨none, by simp [hd], by simp [hd], ?_⟩
        intro r' hr' hne'
        injection hr' with e
        exact absurd (by rw [← e]; exact hd) hne'
      · have hne := hval r hr
        refine ⟨some ⟨s.path, r, generate_ref s.path s.data⟩, by simp [hne, hd], ?_, ?_⟩
        · simp [hd]
        · intro r' hr' _
          injection hr' with e
          rw [e]

theorem track_warns_iff_witness :
    scratchOK exDirState ∧ (∀ r, exDirState.ref = some r → r ≠ "") ∧
    ∃ w, (track exDirState).2 = .ok (generate_ref exDirState.path exDirState.data, w) := by
  refine ⟨by decide, by simp [exDirState], ?_⟩
  obtain ⟨w, h1, -, -⟩ := track_warns_iff exDirState (by decide) (by simp [exDirState])
  exact ⟨w, h1⟩

/-- C3, the claim as frozen, is false: on a single-file subject whose
declared path has no directory component, `track` does not return a new
digest with at most a warning — the mirror-population step raises
`FileExistsError` and `track` propagates the exception. -/
theorem track_claim_counterexample :
    ¬ ∃ d w, (track parentlessState).2 = Except.ok (d, w) := by
  intro ⟨d, w, h⟩
  have he : (track parentlessState).2 = Except.error OsError.fileExists := by decide
  rw [he] at h
  cases h

/-! ### C4: get_consistency -/

/-- C4: `get_consistency` returns `INCONSISTENT` (the spec's `ABSENT`)
iff no ref is declared, `CACHED` iff a ref is declared and a mirror
entry named by it exists on disk, `RESOLVED` iff a ref is declared and
no such entry exists, and it never mutates any state.  The hypothesis
that a declared ref is nonempty is the spec's configuration precondition
(a ref is a 64-hex-character string); without it, `os.path.join` of the
mirror root with the empty ref names the mirror root itself, which
always exists. -/
theorem get_consistency_classification (s : SourceState)
    (hval : ∀ r, s.ref = some r → r ≠ "") :
    ((get_consistency s).1 = .INCONSISTENT ↔ s.ref = none) ∧
    ((get_consistency s).1 = .CACHED ↔
      ∃ r, s.ref = some r ∧ (storeLookup s.mirror r).isSome = true) ∧
    ((get_consistency s).1 = .RESOLVED ↔
      ∃ r, s.ref = some r ∧ storeLookup s.mirror r = none) ∧
    (get_consistency s).2 = s := by
  cases hr : s.ref with
  | none => simp [get_consistency, hr]
  | some r =>
      have hne := hval r hr
      have hex : mirror_exists s.mirror r = (storeLookup s.mirror r).isSome := by
        unfold mirror_exists storeLookup
        simp [hne]
      simp only [get_consistency, hr, hex]
      cases ho : storeLookup s.mirror r with
      | some v =>
          rw [if_pos (show Option.isSome (some v) = true from rfl)]
          refine ⟨by simp, ?_, ?_, trivial⟩
          · refine ⟨fun _ => ⟨r, rfl, by simp [ho]⟩, fun _ => rfl⟩
          · constructor
            · intro h
              exact absurd h (by simp)
            · intro ⟨r', hr', hnone⟩
              cases hr'
              rw [ho] at hnone
              cases hnone
      | none =>
          rw [if_neg (by simp : ¬(Option.isSome (none : Option MirrorEntry) = true))]
          refine ⟨by simp, ?_, ?_, trivial⟩
          · constructor
            · intro h
              exact absurd h (by simp)
            · intro ⟨r', hr', hsome⟩
              cases hr'
              rw [ho] at hsome
              exact Bool.noConfusion hsome
          · exact ⟨fun _ => ⟨r, rfl, ho⟩, fun _ => rfl⟩

theorem get_consistency_classification_witness :
    (∀ r, exDirStateShortRef.ref = some r → r ≠ "") ∧
    ((get_consistency exDirStateShortRef).1 = .INCONSISTENT ↔
      exDirStateShortRef.ref = none) :=
  ⟨by intro r h; injection h with e; rw [← e]; decide,
   (get_consistency_classification exDirStateShortRef
      (by intro r h; injection h with e; rw [← e]; decide)).1⟩

/-! ### C8 witness -/

theorem digest_ignores_order_and_meta_witness :
    List.Perm (stripMeta exTree) (stripMeta exTreeMeta) ∧ (keys exTree).Nodup ∧
    generate_ref "sally" (.dirSubject exTree) = generate_ref "sally" (.dirSubject exTreeMeta) :=
  ⟨by decide, by decide,
   digest_ignores_order_and_meta "sally" exTree exTreeMeta (by decide) (by decide)⟩

/-! ### Path lemmas for staging -/

theorem splitSep_cons (c : Char) (cs : List Char) :
    splitSep (c :: cs) =
      if c = '/' then [] :: splitSep cs
      else match splitSep cs with
        | [] => [[c]]
        | a :: as => (c :: a) :: as := rfl

theorem splitSep_ne_nil (cs : List Char) : splitSep cs ≠ [] := by
  induction cs with
  | nil => simp [splitSep]
  | cons c cs ih =>
      rw [splitSep_cons]
      by_cases hc : c = '/'
      · simp [hc]
      · rw [if_neg hc]
        cases h : splitSep cs <;> simp

theorem splitSep_eq_self (cs : List Char) (h : '/' ∉ cs) : splitSep cs = [cs] := by
  induction cs with
  | nil => rfl
  | cons c cs ih =>
      have hc : ¬ c = '/' := fun hc => h (by rw [hc]; exact List.mem_cons_self _ _)
      rw [splitSep_cons, if_neg hc, ih (fun hm => h (List.mem_cons_of_mem _ hm))]

theorem splitSep_no_sep (cs : List Char) : ∀ a ∈ splitSep cs, '/' ∉ a := by
  induction cs with
  | nil =>
      intro a ha
      rw [show splitSep [] = [[]] from rfl] at ha
      rw [List.mem_singleton.mp ha]
      simp
  | cons c cs ih =>
      intro a ha
      rw [splitSep_cons] at ha
      by_cases hc : c = '/'
      · rw [if_pos hc] at ha
        rcases List.mem_cons.mp ha with h1 | h2
        · rw [h1]; simp
        · exact ih a h2
      · rw [if_neg hc] at ha
        cases hs : splitSep cs with
        | nil => exact absurd hs (splitSep_ne_nil cs)
        | cons b bs =>
            rw [hs] at ha
            rcases List.mem_cons.mp ha with h1 | h2
            · rw [h1]
              intro hm
              rcases List.mem_cons.mp hm with h3 | h4
              · exact hc h3.symm
              · exact ih b (by rw [hs]; exact List.mem_cons_self _ _) h4
            · exact ih a (by rw [hs]; exact List.mem_cons_of_mem _ h2)

theorem getLastD_mem {α : Type} (l : List α) (d : α) (h : l ≠ []) : l.getLastD d ∈ l := by
  induction l generalizing d with
  | nil => exact absurd rfl h
  | cons a as ih =>
      rw [List.getLastD_cons]
      cases has : as with
      | nil => simp [List.getLastD]
      | cons b bs =>
          rw [← has]
          exact List.mem_cons_of_mem a (ih a (by rw [has]; simp))

theorem baseName_no_sep (p : String) : '/' ∉ (baseName p).data := by
  show '/' ∉ (parts p).getLastD []
  exact fun hm =>
    splitSep_no_sep p.data _ (getLastD_mem (parts p) [] (splitSep_ne_nil p.data)) hm

theorem ancestors_baseName (p : String) : ancestors (baseName p) = [] := by
  unfold ancestors
  rw [show parts (baseName p) = [(baseName p).data] from
    splitSep_eq_self (baseName p).data (baseName_no_sep p)]
  rfl

/-! ### Pointwise lemmas for the staging folds -/

theorem place_eq (d : Dest) (p : String) (de : DiskEntry) : place d p de p = some de := by
  simp [place]

theorem place_ne (d : Dest) (p q : String) (de : DiskEntry) (h : q ≠ p) :
    place d p de q = d q := by
  simp [place, h]

theorem setMode_ne (d : Dest) (a q : String) (m : Nat) (h : q ≠ a) :
    setMode d a m q = d q := by
  simp [setMode, h]

theorem setMode_shape (d : Dest) (a p : String) (mm : Nat) (e : Entry) (m mt ow : Nat)
    (h : d p = some ⟨e, m, mt, ow⟩) :
    ∃ m', setMode d a mm p = some ⟨e, m', mt, ow⟩ := by
  by_cases hap : p = a
  · subst hap
    exact ⟨mm, by simp [setMode, h]⟩
  · exact ⟨m, by rw [setMode_ne d a p mm hap]; exact h⟩

theorem setMode755_fix (d : Dest) (a p : String) (e : Entry) (mt ow : Nat)
    (h : d p = some ⟨e, mode755, mt, ow⟩) :
    setMode d a mode755 p = some ⟨e, mode755, mt, ow⟩ := by
  by_cases hap : p = a
  · subst hap
    simp [setMode, h]
  · rw [setMode_ne d a p mode755 hap]
    exact h

theorem foldl_setMode_ne (as : List String) (d : Dest) (p : String) (h : p ∉ as) :
    (as.foldl (fun d a => setMode d a mode755) d) p = d p := by
  induction as generalizing d with
  | nil => rfl
  | cons a rest ih =>
      have hpa : p ≠ a := fun he => h (by rw [he]; exact List.mem_cons_self _ _)
      show (rest.foldl (fun d a => setMode d a mode755) (setMode d a mode755)) p = d p
      rw [ih (setMode d a mode755) (fun hm => h (List.mem_cons_of_mem _ hm))]
      exact setMode_ne d a p mode755 hpa

theorem foldl_setMode_shape (as : List String) (d : Dest) (p : String)
    (e : Entry) (m mt ow : Nat) (h : d p = some ⟨e, m, mt, ow⟩) :
    ∃ m', (as.foldl (fun d a => setMode d a mode755) d) p = some ⟨e, m', mt, ow⟩ := by
  induction as generalizing d m with
  | nil => exact ⟨m, h⟩
  | cons a rest ih =>
      obtain ⟨m1, h1⟩ := setMode_shape d a p mode755 e m mt ow h
      exact ih (setMode d a mode755) m1 h1

theorem foldl_setMode_fix (as : List String) (d : Dest) (p : String)
    (e : Entry) (mt ow : Nat) (h : d p = some ⟨e, mode755, mt, ow⟩) :
    (as.foldl (fun d a => setMode d a mode755) d) p = some ⟨e, mode755, mt, ow⟩ := by
  induction as generalizing d with
  | nil => exact h
  | cons a rest ih => exact ih (setMode d a mode755) (setMode755_fix d a p e mt ow h)

theorem chmodAncestors_ne (d : Dest) (f p : String) (h : p ∉ ancestors f) :
    chmodAncestors d f p = d p :=
  foldl_setMode_ne (ancestors f) d p h

theorem chmodAncestors_shape (d : Dest) (f p : String) (e : Entry) (m mt ow : Nat)
    (h : d p = some ⟨e, m, mt, ow⟩) :
    ∃ m', chmodAncestors d f p = some ⟨e, m', mt, ow⟩ :=
  foldl_setMode_shape (ancestors f) d p e m mt ow h

theorem chmodAncestors_fix (d : Dest) (f p : String) (e : Entry) (mt ow : Nat)
    (h : d p = some ⟨e, mode755, mt, ow⟩) :
    chmodAncestors d f p = some ⟨e, mode755, mt, ow⟩ :=
  foldl_setMode_fix (ancestors f) d p e mt ow h

theorem chmodEntry_ne (d : Dest) (f q : String) (h : q ≠ f) : chmodEntry d f q = d q := by
  unfold chmodEntry
  cases hdf : d f with
  | none => rfl
  | some de =>
      obtain ⟨e, m, mt, ow⟩ := de
      cases e with
      | symlink tgt => rfl
      | dir => exact setMode_ne d f q mode755 h
      | file c => exact setMode_ne d f q _ h

theorem stageStep_not_touching (d : Dest) (f p : String) (h1 : p ≠ f)
    (h2 : p ∉ ancestors f) : stageStep d f p = d p := by
  unfold stageStep
  rw [chmodEntry_ne _ f p h1]
  exact chmodAncestors_ne d f p h2

theorem chmodPhase_not_touching (l : List (String × DiskEntry)) (d : Dest) (p : String)
    (h : ∀ q ∈ l, p ≠ q.1 ∧ p ∉ ancestors q.1) :
    (l.foldl (fun d q => stageStep d q.1) d) p = d p := by
  induction l generalizing d with
  | nil => rfl
  | cons q rest ih =>
      obtain ⟨h1, h2⟩ := h q (List.mem_cons_self _ _)
      show (rest.foldl (fun d q => stageStep d q.1) (stageStep d q.1)) p = d p
      rw [ih (stageStep d q.1) (fun r hr => h r (List.mem_cons_of_mem _ hr))]
      exact stageStep_not_touching d q.1 p h1 h2

theorem stageStep_shape (d : Dest) (f p : String) (e : Entry) (m mt ow : Nat)
    (h : d p = some ⟨e, m, mt, ow⟩) :
    ∃ m', stageStep d f p = some ⟨e, m', mt, ow⟩ := by
  unfold stageStep
  obtain ⟨m1, h1⟩ := chmodAncestors_shape d f p e m mt ow h
  by_cases hpf : p = f
  · subst hpf
    unfold chmodEntry
    rw [h1]
    cases e with
    | symlink tgt => exact ⟨m1, h1⟩
    | dir =>
        refine ⟨mode755, ?_⟩
        show setMode (chmodAncestors d p) p mode755 p = _
        simp [setMode, h1]
    | file c =>
        refine ⟨if Nat.land m1 64 ≠ 0 then mode755 else mode644, ?_⟩
        show setMode (chmodAncestors d p) p _ p = _
        simp [setMode, h1]
  · rw [chmodEntry_ne _ f p hpf]
    exact ⟨m1, h1⟩

theorem chmodPhase_shape (l : List (String × DiskEntry)) (d : Dest) (p : String)
    (e : Entry) (m mt ow : Nat) (h : d p = some ⟨e, m, mt, ow⟩) :
    ∃ m', (l.foldl (fun d q => stageStep d q.1) d) p = some ⟨e, m', mt, ow⟩ := by
  induction l generalizing d m with
  | nil => exact ⟨m, h⟩
  | cons q rest ih =>
      obtain ⟨m1, h1⟩ := stageStep_shape d q.1 p e m mt ow h
      exact ih (stageStep d q.1) m1 h1

theorem stageStep_dir_fix (d : Dest) (f p : String) (mt ow : Nat)
    (h : d p = some ⟨.dir, mode755, mt, ow⟩) :
    stageStep d f p = some ⟨.dir, mode755, mt, ow⟩ := by
  unfold stageStep
  have h1 : chmodAncestors d f p = some ⟨.dir, mode755, mt, ow⟩ :=
    chmodAncestors_fix d f p _ mt ow h
  by_cases hpf : p = f
  · subst hpf
    unfold chmodEntry
    rw [h1]
    show setMode (chmodAncestors d p) p mode755 p = _
    simp [setMode, h1]
  · rw [chmodEntry_ne _ f p hpf]
    exact h1

theorem chmodPhase_dir_fix (l : List (String × DiskEntry)) (d : Dest) (p : String)
    (mt ow : Nat) (h : d p = some ⟨.dir, mode755, mt, ow⟩) :
    (l.foldl (fun d q => stageStep d q.1) d) p = some ⟨.dir, mode755, mt, ow⟩ := by
  induction l generalizing d with
  | nil => exact h
  | cons q rest ih => exact ih (stageStep d q.1) (stageStep_dir_fix d q.1 p mt ow h)

theorem stageStep_self_dir (d : Dest) (p : String) (m mt ow : Nat)
    (hv : d p = some ⟨.dir, m, mt, ow⟩) :
    stageStep d p p = some ⟨.dir, mode755, mt, ow⟩ := by
  unfold stageStep
  obtain ⟨m1, h1⟩ := chmodAncestors_shape d p p .dir m mt ow hv
  unfold chmodEntry
  rw [h1]
  show setMode (chmodAncestors d p) p mode755 p = _
  simp [setMode, h1]

theorem stageStep_self_file (d : Dest) (p : String) (c : Bytes) (m mt ow : Nat)
    (hv : d p = some ⟨.file c, m, mt, ow⟩) (hna : p ∉ ancestors p) :
    stageStep d p p =
      some ⟨.file c, if Nat.land m 64 ≠ 0 then mode755 else mode644, mt, ow⟩ := by
  unfold stageStep
  have h1 : chmodAncestors d p p = d p := chmodAncestors_ne d p p hna
  have h2 : chmodAncestors d p p = some ⟨.file c, m, mt, ow⟩ := by rw [h1, hv]
  unfold chmodEntry
  rw [h2]
  show setMode (chmodAncestors d p) p _ p = _
  simp [setMode, h2]

theorem stageStep_self_symlink (d : Dest) (p tgt : String) (m mt ow : Nat)
    (hv : d p = some ⟨.symlink tgt, m, mt, ow⟩) (hna : p ∉ ancestors p) :
    stageStep d p p = some ⟨.symlink tgt, m, mt, ow⟩ := by
  unfold stageStep
  have h1 : chmodAncestors d p p = d p := chmodAncestors_ne d p p hna
  have h2 : chmodAncestors d p p = some ⟨.symlink tgt, m, mt, ow⟩ := by rw [h1, hv]
  unfold chmodEntry
  rw [h2]
  exact h2

theorem copyPhase_not_mem (l : List (String × DiskEntry)) (d : Dest) (p : String)
    (h : ∀ q ∈ l, p ≠ q.1) :
    (l.foldl (fun d q => place d q.1 q.2) d) p = d p := by
  induction l generalizing d with
  | nil => rfl
  | cons q rest ih =>
      show (rest.foldl (fun d q => place d q.1 q.2) (place d q.1 q.2)) p = d p
      rw [ih (place d q.1 q.2) (fun r hr => h r (List.mem_cons_of_mem _ hr))]
      exact place_ne d q.1 p q.2 (h q (List.mem_cons_self _ _))

theorem copyPhase_mem (l : List (String × DiskEntry)) (d : Dest) (p : String)
    (de : DiskEntry) (hnd : (l.map Prod.fst).Nodup) (hmem : (p, de) ∈ l) :
    (l.foldl (fun d q => place d q.1 q.2) d) p = some de := by
  induction l generalizing d with
  | nil => cases hmem
  | cons q rest ih =>
      rw [List.map_cons] at hnd
      obtain ⟨hq1, hrest⟩ := List.nodup_cons.mp hnd
      rcases List.mem_cons.mp hmem with h1 | h2
      · obtain rfl : q = (p, de) := h1.symm
        show (rest.foldl (fun d q => place d q.1 q.2) (place d p de)) p = some de
        rw [copyPhase_not_mem rest (place d p de) p ?hne]
        · exact place_eq d p de
        · intro r hr he
          exact hq1 (List.mem_map.mpr ⟨r, hr, he.symm⟩)
      · exact ih (place d q.1 q.2) hrest h2

theorem mem_entry_unique (t : DirTree) (hnd : (keys t).Nodup) (p : String)
    (a b : DiskEntry) (ha : (p, a) ∈ t) (hb : (p, b) ∈ t) : a = b := by
  induction t with
  | nil => cases ha
  | cons q rest ih =>
      have hnd' : (q.1 :: (keys rest)).Nodup := hnd
      obtain ⟨hq1, hrest⟩ := List.nodup_cons.mp hnd'
      rcases List.mem_cons.mp ha with ha1 | ha2 <;> rcases List.mem_cons.mp hb with hb1 | hb2
      · have := ha1.trans hb1.symm
        injection this
      · exfalso
        apply hq1
        rw [← ha1]
        exact List.mem_map.mpr ⟨(p, b), hb2, rfl⟩
      · exfalso
        apply hq1
        rw [← hb1]
        exact List.mem_map.mpr ⟨(p, a), ha2, rfl⟩
      · exact ih hrest ha2 hb2

theorem not_dir_not_touched (t : DirTree) (hnd : (keys t).Nodup)
    (p : String) (de : DiskEntry) (hmem : (p, de) ∈ t) (hde : de.entry ≠ .dir)
    (hanc : ∀ q ∈ t, ∀ a ∈ ancestors q.1, dirAt t a) :
    ∀ f ∈ t, p ∉ ancestors f.1 := by
  intro f hf hpa
  obtain ⟨dm, hdm, hdme⟩ := hanc f hf p hpa
  exact hde (by rw [mem_entry_unique t hnd p de dm hmem hdm]; exact hdme)

/-- The central staging lemma: on a wellformed directory tree, every
member ends up in the destination at its relative path as its
normalized staged entry. -/
theorem stageDir_member (t : DirTree) (d : Dest) (hwf : TreeWF t) :
    ∀ p de, (p, de) ∈ t → stageDir t d p = some (stagedEntry de) := by
  obtain ⟨hnd, hanc⟩ := hwf
  intro p de hmem
  have hperm := sortListing_perm t
  have hmem' : (p, de) ∈ sortListing t := hperm.mem_iff.mpr hmem
  have hndl : ((sortListing t).map Prod.fst).Nodup :=
    ((hperm.map Prod.fst).nodup_iff).mpr hnd
  show ((sortListing t).foldl (fun d q => stageStep d q.1)
      ((sortListing t).foldl (fun d q => place d q.1 q.2) d)) p = some (stagedEntry de)
  have hcopy : ((sortListing t).foldl (fun d q => place d q.1 q.2) d) p = some de :=
    copyPhase_mem _ d p de hndl hmem'
  obtain ⟨l₁, l₂, hsplit⟩ := List.append_of_mem hmem'
  have hmid : (p :: (l₁.map Prod.fst ++ l₂.map Prod.fst)).Nodup := by
    have := hndl
    rw [hsplit, List.map_append, List.map_cons] at this
    exact List.nodup_middle.mp this
  obtain ⟨hpout, _⟩ := List.nodup_cons.mp hmid
  have hp1 : ∀ q ∈ l₁, p ≠ q.1 := by
    intro q hq he
    exact hpout (List.mem_append.mpr (Or.inl (List.mem_map.mpr ⟨q, hq, he.symm⟩)))
  have hp2 : ∀ q ∈ l₂, p ≠ q.1 := by
    intro q hq he
    exact hpout (List.mem_append.mpr (Or.inr (List.mem_map.mpr ⟨q, hq, he.symm⟩)))
  have hmem₁ : ∀ q ∈ l₁, q ∈ t := by
    intro q hq
    refine hperm.mem_iff.mp ?_
    rw [hsplit]
    exact List.mem_append.mpr (Or.inl hq)
  have hmem₂ : ∀ q ∈ l₂, q ∈ t := by
    intro q hq
    refine hperm.mem_iff.mp ?_
    rw [hsplit]
    exact List.mem_append.mpr (Or.inr (List.mem_cons_of_mem _ hq))
  set c0 : Dest := (sortListing t).foldl (fun d q => place d q.1 q.2) d with hc0
  rw [hsplit, List.foldl_append, List.foldl_cons]
  obtain ⟨e, em, emt, eow⟩ := de
  cases e with
  | dir =>
      obtain ⟨m1, h1⟩ := chmodPhase_shape l₁ _ p .dir em emt eow hcopy
      have h2 := stageStep_self_dir _ p m1 emt eow h1
      exact chmodPhase_dir_fix l₂ _ p emt eow h2
  | file c =>
      have hnt := not_dir_not_touched t hnd p ⟨.file c, em, emt, eow⟩ hmem (by simp) hanc
      have h1 : (l₁.foldl (fun d q => stageStep d q.1) c0) p =
          some ⟨.file c, em, emt, eow⟩ := by
        rw [chmodPhase_not_touching l₁ _ p
          (fun q hq => ⟨hp1 q hq, hnt q (hmem₁ q hq)⟩)]
        exact hcopy
      have hna : p ∉ ancestors p := hnt (p, ⟨.file c, em, emt, eow⟩) hmem
      have h2 := stageStep_self_file _ p c em emt eow h1 hna
      rw [chmodPhase_not_touching l₂ _ p
        (fun q hq => ⟨hp2 q hq, hnt q (hmem₂ q hq)⟩)]
      exact h2
  | symlink tgt =>
      have hnt := not_dir_not_touched t hnd p ⟨.symlink tgt, em, emt, eow⟩ hmem (by simp) hanc
      have h1 : (l₁.foldl (fun d q => stageStep d q.1) c0) p =
          some ⟨.symlink tgt, em, emt, eow⟩ := by
        rw [chmodPhase_not_touching l₁ _ p
          (fun q hq => ⟨hp1 q hq, hnt q (hmem₁ q hq)⟩)]
        exact hcopy
      have hna : p ∉ ancestors p := hnt (p, ⟨.symlink tgt, em, emt, eow⟩) hmem
      have h2 := stageStep_self_symlink _ p tgt em emt eow h1 hna
      rw [chmodPhase_not_touching l₂ _ p
        (fun q hq => ⟨hp2 q hq, hnt q (hmem₂ q hq)⟩)]
      exact h2

theorem stage_file_at_basename (s : SourceState) (d : Dest) (content : Bytes) (mode : Nat)
    (hd : s.data = .fileSubject content mode) :
    stage s d (baseName s.path) =
      some ⟨.file content, if Nat.land mode 64 ≠ 0 then mode755 else mode644, 0, 0⟩ := by
  have hstage : stage s d =
      stageStep (place d (baseName s.path) ⟨.file content, mode, 0, 0⟩) (baseName s.path) := by
    unfold stage
    rw [hd]
  rw [hstage]
  have hna : baseName s.path ∉ ancestors (baseName s.path) := by
    rw [ancestors_baseName]
    exact List.not_mem_nil _
  exact stageStep_self_file _ (baseName s.path) content mode 0 0
    (place_eq d (baseName s.path) _) hna

/-! ### C6, C7: staging -/

/-- The staged mode of every member kind, spelled out. -/
theorem stagedEntry_modes (de : DiskEntry) :
    (stagedEntry de).entry = de.entry ∧
    (stagedEntry de).mtime = de.mtime ∧ (stagedEntry de).owner = de.owner ∧
    (de.entry = .dir → (stagedEntry de).mode = mode755) ∧
    (∀ c, de.entry = .file c → Nat.land de.mode 64 ≠ 0 → (stagedEntry de).mode = mode755) ∧
    (∀ c, de.entry = .file c → Nat.land de.mode 64 = 0 → (stagedEntry de).mode = mode644) ∧
    (∀ tgt, de.entry = .symlink tgt → (stagedEntry de).mode = de.mode) := by
  obtain ⟨e, m, mt, ow⟩ := de
  cases e with
  | dir =>
      refine ⟨rfl, rfl, rfl, fun _ => rfl, ?_, ?_, ?_⟩
      · intro c hc
        exact absurd hc (by simp)
      · intro c hc
        exact absurd hc (by simp)
      · intro tgt htgt
        exact absurd htgt (by simp)
  | file c =>
      refine ⟨rfl, rfl, rfl, ?_, ?_, ?_, ?_⟩
      · intro hdir
        exact absurd hdir (by simp)
      · intro c' hc' hx
        show (if Nat.land m 64 ≠ 0 then mode755 else mode644) = mode755
        rw [if_pos hx]
      · intro c' hc' hx
        show (if Nat.land m 64 ≠ 0 then mode755 else mode644) = mode644
        rw [if_neg (by rw [hx]; simp)]
      · intro tgt htgt
        exact absurd htgt (by simp)
  | symlink tgt =>
      refine ⟨rfl, rfl, rfl, ?_, ?_, ?_, fun _ _ => rfl⟩
      · intro hdir
        exact absurd hdir (by simp)
      · intro c hc
        exact absurd hc (by simp)
      · intro c hc
        exact absurd hc (by simp)

/-- C7: after staging a directory subject, every staged directory has
mode rwxr-xr-x (octal 755), every staged regular file that was
owner-executable has mode rwxr-xr-x, every other staged regular file has
mode rw-r--r-- (octal 644), and the permission bits of symbolic links
are left untouched. -/
theorem stage_normalizes_modes (s : SourceState) (t : DirTree) (d : Dest)
    (hd : s.data = .dirSubject t) (hwf : TreeWF t) :
    ∀ p de, (p, de) ∈ t →
      stage s d p = some (stagedEntry de) ∧
      (de.entry = .dir → (stagedEntry de).mode = mode755) ∧
      (∀ c, de.entry = .file c → Nat.land de.mode 64 ≠ 0 → (stagedEntry de).mode = mode755) ∧
      (∀ c, de.entry = .file c → Nat.land de.mode 64 = 0 → (stagedEntry de).mode = mode644) ∧
      (∀ tgt, de.entry = .symlink tgt → (stagedEntry de).mode = de.mode) := by
  intro p de hmem
  have hstage : stage s d = stageDir t d := by
    unfold stage
    rw [hd]
  obtain ⟨-, -, -, h4, h5, h6, h7⟩ := stagedEntry_modes de
  exact ⟨by rw [hstage]; exact stageDir_member t d hwf p de hmem, h4, h5, h6, h7⟩

theorem stage_normalizes_modes_witness :
    exStageState.data = .dirSubject exStageTree ∧ TreeWF exStageTree ∧
    ("sally/x.sh", (⟨.file [1, 2], 484, 3, 4⟩ : DiskEntry)) ∈ exStageTree ∧
    stage exStageState emptyDest "sally/x.sh" =
      some (stagedEntry ⟨.file [1, 2], 484, 3, 4⟩) :=
  ⟨rfl, by decide, by decide,
   (stage_normalizes_modes exStageState exStageTree emptyDest rfl (by decide)
      "sally/x.sh" ⟨.file [1, 2], 484, 3, 4⟩ (by decide)).1⟩

/-- C6 (amended): `stage` copies every member of a wellformed directory
subject's tree into the destination at its relative path, preserving the
relative layout (content, link target, timestamp and owner preserved;
permission mode normalized); a single-file subject, however, is staged
at the basename of its declared path directly under the destination
root, not at its full project-relative path. -/
theorem stage_places_members (s : SourceState) (d : Dest) :
    (∀ t, s.data = .dirSubject t → TreeWF t →
      ∀ p de, (p, de) ∈ t → ∃ m, stage s d p = some ⟨de.entry, m, de.mtime, de.owner⟩) ∧
    (∀ content mode, s.data = .fileSubject content mode →
      stage s d (baseName s.path) =
        some ⟨.file content, if Nat.land mode 64 ≠ 0 then mode755 else mode644, 0, 0⟩) := by
  constructor
  · intro t hd hwf p de hmem
    have hstage : stage s d = stageDir t d := by
      unfold stage
      rw [hd]
    refine ⟨(stagedEntry de).mode, ?_⟩
    rw [hstage, stageDir_member t d hwf p de hmem]
    obtain ⟨e, m, mt, ow⟩ := de
    cases e <;> rfl
  · intro content mode hd
    exact stage_file_at_basename s d content mode hd

theorem stage_places_members_witness :
    exFileState.data = .fileSubject [104, 105] 420 ∧
    stage exFileState emptyDest (baseName exFileState.path) =
      some ⟨.file [104, 105], if Nat.land 420 64 ≠ 0 then mode755 else mode644, 0, 0⟩ :=
  ⟨rfl, (stage_places_members exFileState emptyDest).2 [104, 105] 420 rfl⟩

/-- C6, the claim as frozen, is false: a single-file subject whose
declared path contains directory segments is not placed at that full
relative path under the destination — `stage` copies it to
`os.path.join(directory, os.path.basename(self.path))`, so the member
`files/bob.txt` of the resolved tree ends up at `bob.txt` and nothing is
staged at `files/bob.txt`. -/
theorem stage_claim_counterexample :
    ¬ (∀ q ∈ subjectMembers exFileState, ∃ m,
        stage exFileState emptyDest q.1 = some ⟨q.2.entry, m, q.2.mtime, q.2.owner⟩) := by
  intro h
  obtain ⟨m, hm⟩ :=
    h ("files/bob.txt", (⟨.file [104, 105], 420, 0, 0⟩ : DiskEntry)) (by decide)
  have hnone : stage exFileState emptyDest "files/bob.txt" = none := by decide
  rw [hnone] at hm
  cases hm

end ProjectRef
